import Mathlib

/-!
Verification of the PITOS uniformity test (`src/python/PITOS/src/pitos/core.py`).

Floating-point values are modelled as exact rationals.  The external
statistical-library routines (`scipy.stats.beta.cdf`, `scipy.stats.beta.ppf`,
`scipy.stats.cauchy.sf`, `numpy.tan`, `numpy.pi`, `numpy.log`) are abstracted
behind a backend structure, mirroring the numeric-library capability interface
of the design notes; theorems that need analytic facts about those routines
(e.g. a CDF has range `[0,1]`, `tan 0 = 0`) take them as explicit hypotheses.
Python exceptions (`raise ValueError`) are modelled with `Except String`.
-/

namespace PITOS

/-- Abstract interface to the statistical library used by the code:
`betaCDF x a b` is `scipy.stats.beta.cdf(x, a, b)` (integer shape parameters,
as at every call site), `betaPPF q a b` is `scipy.stats.beta.ppf(q, a, b)`,
`tan` is `numpy.tan`, `pi` the float `numpy.pi`, `cauchySF` is
`scipy.stats.cauchy.sf`, `log` is `numpy.log`. -/
structure StatsBackend where
  betaCDF : ℚ → ℤ → ℤ → ℚ
  betaPPF : ℚ → ℚ → ℚ → ℚ
  tan : ℚ → ℚ
  pi : ℚ
  cauchySF : ℚ → ℚ
  log : ℚ → ℚ

/-- One observable outcome of the `while i > 0` loop of `_halton_1d`, run
with `fuel` permitted iterations: `none` when the fuel is exhausted before
the loop exits, `some (.error _)` when an iteration raises
(`f /= b` with `b = 0` raises `ZeroDivisionError` in Python), and
`some (.ok r)` when the loop exits normally with accumulator `r`.
Loop body order is that of the source: `f /= b`, then
`result += f * (i % b)`, then `i //= b`. -/
def haltonLoopFuel (b : ℕ) : ℕ → ℕ → ℚ → ℚ → Option (Except String ℚ)
  | 0, _, _, _ => none
  | fuel + 1, i, f, result =>
    if i = 0 then some (.ok result)
    else if b = 0 then some (.error "float division by zero")
    else haltonLoopFuel b fuel (i / b) (f / b) (result + f / b * ((i % b : ℕ) : ℚ))

/-- The value computed by the `_halton_1d` loop starting from digit weight
`f`, as a recursive function: the loop strictly decreases `i` by integer
division by `b` once `b ≥ 2`.  Outside that domain (`i = 0` is a normal
exit; `b ≤ 1` never reaches a normal exit) the value is `0`. -/
def halton1dAux (b : ℕ) (i : ℕ) (f : ℚ) : ℚ :=
  if i = 0 ∨ b ≤ 1 then 0
  else f / b * ((i % b : ℕ) : ℚ) + halton1dAux b (i / b) (f / b)
termination_by i
decreasing_by
  exact Nat.div_lt_self (Nat.pos_of_ne_zero (by omega)) (by omega)

/-- Model of `_halton_1d(i, b)`: van der Corput radical-inverse of `i` in
base `b`, with `result = 0`, `f = 1` initially. -/
def _halton_1d (i : ℕ) (b : ℕ) : ℚ :=
  halton1dAux b i 1

/-- Model of `_generate_raw_halton_sequence(N, n)`: raises when `n ≤ 0`,
otherwise the pairs `(_halton_1d(i, 2), _halton_1d(i, 3))` for `i = 1..N`. -/
def _generate_raw_halton_sequence (N : ℕ) (n : ℤ) : Except String (List (ℚ × ℚ)) :=
  if n ≤ 0 then .error "Sample size n must be a positive integer."
  else .ok ((List.range N).map (fun k => (_halton_1d (k + 1) 2, _halton_1d (k + 1) 3)))

/-- Model of `generate_weighted_halton_sequence(N, n)`: warp each raw Halton
coordinate through `beta.ppf(·, 0.7, 0.7)`, replace exact zeros by `1/n`,
scale by `n` and take the ceiling, then append the marginal pairs `(k, k)`,
`k = 1..n`. -/
def generate_weighted_halton_sequence (B : StatsBackend) (N : ℕ) (n : ℤ) :
    Except String (List (ℤ × ℤ)) :=
  match _generate_raw_halton_sequence N n with
  | .error e => .error e
  | .ok raw_halton =>
    let weighted_pairs := raw_halton.map (fun p =>
      let wx0 := B.betaPPF p.1 (7/10) (7/10)
      let wy0 := B.betaPPF p.2 (7/10) (7/10)
      let wx := if wx0 = 0 then 1 / (n : ℚ) else wx0
      let wy := if wy0 = 0 then 1 / (n : ℚ) else wy0
      (⌈wx * (n : ℚ)⌉, ⌈wy * (n : ℚ)⌉))
    let marginals := (List.range n.toNat).map (fun k : ℕ => ((k : ℤ) + 1, (k : ℤ) + 1))
    .ok (weighted_pairs ++ marginals)

/-- Model of `_indexed_pitcos_bidirectional(xo, n, pair)`: the per-pair
two-sided p-value `2 * min(u, 1 - u)`, with `u` the Beta CDF of the relevant
order statistic or conditional spacing ratio; `xo` is accessed 0-based at
`start - 1` and `finish - 1`. -/
def _indexed_pitcos_bidirectional (B : StatsBackend) (xo : List ℚ) (n : ℤ)
    (pair : ℤ × ℤ) : ℚ :=
  let start := pair.1
  let finish := pair.2
  let startIdx := (start - 1).toNat
  let finishIdx := (finish - 1).toNat
  let u : ℚ :=
    if start = finish then
      B.betaCDF (xo.getD finishIdx 0) finish (n - finish + 1)
    else if start < finish then
      if xo.getD startIdx 0 = xo.getD finishIdx 0 then 0
      else
        B.betaCDF ((xo.getD finishIdx 0 - xo.getD startIdx 0) / (1 - xo.getD startIdx 0))
          (finish - start) (n - finish + 1)
    else
      if xo.getD startIdx 0 = xo.getD finishIdx 0 then 0
      else
        B.betaCDF (xo.getD finishIdx 0 / xo.getD startIdx 0) finish (start - finish)
  2 * min u (1 - u)

/-- Model of `numpy.mean`: `nan` (represented as `none`) on an empty array,
otherwise the arithmetic mean. -/
def npMean (l : List ℚ) : Option ℚ :=
  if l = [] then none else some (l.sum / l.length)

/-- Model of `_cauchy_combination(pvalues)`: raises when any p-value is
outside `[0, 1]`, otherwise the Cauchy survival function of the mean of
`tan(pi * (0.5 - p))`.  The payload `none` represents `nan`: on an empty
array `np.mean` yields `nan`, which `cauchy.sf` propagates (`sf(nan) = nan`),
hence the `Option.map`. -/
def _cauchy_combination (B : StatsBackend) (pvalues : List ℚ) :
    Except String (Option ℚ) :=
  if pvalues.any (fun p => decide (p < 0) || decide (p > 1)) then
    .error "All p-values must be in the range [0, 1]."
  else
    .ok ((npMean (pvalues.map (fun p => B.tan (B.pi * (1/2 - p))))).map B.cauchySF)

/-- Model of `_validate_pairs(pairs, n)`: raises when any pair component is
`< 1` or `> n`. -/
def _validate_pairs (pairs : List (ℤ × ℤ)) (n : ℤ) : Except String Unit :=
  if pairs.any (fun p => decide (p.1 < 1) || decide (p.2 < 1) ||
      decide (p.1 > n) || decide (p.2 > n)) then
    .error ("All pair indices must be between 1 and n (where n=" ++ toString n ++ ").")
  else .ok ()

/-- Model of `pitos(x, pairs_sequence)`: generate pairs when none are
supplied (with `N = round(10 * n * log n)`), validate them, sort the sample,
compute the per-pair p-values in order, and combine them. -/
def pitos (B : StatsBackend) (x : List ℚ)
    (pairs_sequence : Option (List (ℤ × ℤ))) : Except String (Option ℚ) :=
  let n : ℤ := x.length
  let generated : Except String (List (ℤ × ℤ)) :=
    match pairs_sequence with
    | none => generate_weighted_halton_sequence B (round (10 * (n : ℚ) * B.log (n : ℚ))).toNat n
    | some ps => .ok ps
  match generated with
  | .error e => .error e
  | .ok ps =>
    match _validate_pairs ps n with
    | .error e => .error e
    | .ok _ =>
      let xo := x.mergeSort (fun a b => decide (a ≤ b))
      let p_values := ps.map (fun pair => _indexed_pitcos_bidirectional B xo n pair)
      _cauchy_combination B p_values

/-- A concrete backend used to instantiate theorems at closed inputs: the
Beta CDF and Cauchy survival function are constantly `1/2` (so their range
is inside `[0, 1]` and `cauchySF 0 = 1/2`), `tan` and `log` are the
identity (so `tan 0 = 0`), the Beta quantile is the identity in its first
argument (so it maps `[0, 1)` into `[0, 1)`), and `pi` is `3`. -/
def mockBackend : StatsBackend where
  betaCDF := fun _ _ _ => 1/2
  betaPPF := fun q _ _ => q
  tan := fun t => t
  pi := 3
  cauchySF := fun _ => 1/2
  log := fun t => t

/-! ### Helper lemmas about the Halton loop -/

/-- For a base `b ≥ 2` the loop value starting from digit weight `f > 0`
lies in `[0, f)`. -/
lemma halton1dAux_bounds (b : ℕ) (hb : 2 ≤ b) :
    ∀ (i : ℕ) (f : ℚ), 0 < f → 0 ≤ halton1dAux b i f ∧ halton1dAux b i f < f := by
  intro i
  induction i using Nat.strong_induction_on with
  | _ i ih =>
    intro f hf
    rw [halton1dAux]
    by_cases hi : i = 0
    · simp [hi, hf]
    · rw [if_neg (by omega)]
      have hbQ : (0 : ℚ) < (b : ℚ) := by positivity
      have hfb : 0 < f / b := div_pos hf hbQ
      obtain ⟨h1, h2⟩ := ih (i / b)
        (Nat.div_lt_self (Nat.pos_of_ne_zero hi) (by omega)) (f / b) hfb
      have hmodQ : ((i % b : ℕ) : ℚ) ≤ (b : ℚ) - 1 := by
        have hm : i % b ≤ b - 1 := by
          have := Nat.mod_lt i (show 0 < b by omega)
          omega
        have hcast : ((i % b : ℕ) : ℚ) ≤ ((b - 1 : ℕ) : ℚ) := by exact_mod_cast hm
        calc ((i % b : ℕ) : ℚ) ≤ ((b - 1 : ℕ) : ℚ) := hcast
          _ ≤ (b : ℚ) - 1 := by
            push_cast [Nat.cast_sub (show 1 ≤ b by omega)]
            linarith
      have hmul : f / b * (i % b : ℕ) ≤ f / b * ((b : ℚ) - 1) :=
        mul_le_mul_of_nonneg_left hmodQ (le_of_lt hfb)
      have hsum : f / b * ((b : ℚ) - 1) + f / b = f := by
        field_simp
        ring
      have hmn : (0 : ℚ) ≤ f / b * (i % b : ℕ) := by positivity
      constructor
      · linarith
      · linarith

/-- With fuel exceeding `i`, the loop for a base `b ≥ 2` exits normally and
adds `halton1dAux b i f` to the accumulator. -/
lemma haltonLoopFuel_eq_aux (b : ℕ) (hb : 2 ≤ b) :
    ∀ (fuel i : ℕ) (f r : ℚ), i < fuel →
      haltonLoopFuel b fuel i f r = some (.ok (r + halton1dAux b i f)) := by
  intro fuel
  induction fuel with
  | zero => intro i f r h; omega
  | succ fuel ih =>
    intro i f r h
    rw [haltonLoopFuel]
    by_cases hi : i = 0
    · subst hi
      rw [if_pos rfl, halton1dAux]
      simp
    · rw [if_neg hi, if_neg (by omega)]
      have hlt : i / b < i := Nat.div_lt_self (Nat.pos_of_ne_zero hi) (by omega)
      rw [ih (i / b) (f / b) (r + f / b * ((i % b : ℕ) : ℚ))
        (lt_of_lt_of_le hlt (by omega))]
      have haux : halton1dAux b i f =
          f / b * ((i % b : ℕ) : ℚ) + halton1dAux b (i / b) (f / b) := by
        rw [halton1dAux, if_neg (by omega)]
      rw [haux]
      congr 1
      congr 1
      ring

/-- With base `1` the loop state never changes, so no amount of fuel makes
the loop exit. -/
lemma haltonLoopFuel_one_none :
    ∀ (fuel i : ℕ) (f r : ℚ), 1 ≤ i → haltonLoopFuel 1 fuel i f r = none := by
  intro fuel
  induction fuel with
  | zero => intro i f r _; rfl
  | succ fuel ih =>
    intro i f r hi
    rw [haltonLoopFuel, if_neg (by omega), if_neg (by omega)]
    exact ih _ _ _ (by simpa using hi)

/-- With base `0` and `i ≥ 1` the first iteration raises a division-by-zero
error. -/
lemma haltonLoopFuel_zero_error (fuel i : ℕ) (f r : ℚ) (hf : 1 ≤ fuel) (hi : 1 ≤ i) :
    haltonLoopFuel 0 fuel i f r = some (.error "float division by zero") := by
  obtain ⟨fuel, rfl⟩ : ∃ m, fuel = m + 1 := ⟨fuel - 1, by omega⟩
  rw [haltonLoopFuel, if_neg (by omega), if_pos rfl]

lemma halton1dAux_zero (b : ℕ) (f : ℚ) : halton1dAux b 0 f = 0 := by
  rw [halton1dAux]
  simp

lemma halton1dAux_step (b i : ℕ) (f : ℚ) (h1 : i ≠ 0) (h2 : 2 ≤ b) :
    halton1dAux b i f = f / b * ((i % b : ℕ) : ℚ) + halton1dAux b (i / b) (f / b) := by
  rw [halton1dAux, if_neg (by omega)]

lemma _halton_1d_mem (b i : ℕ) (hb : 2 ≤ b) :
    0 ≤ _halton_1d i b ∧ _halton_1d i b < 1 :=
  halton1dAux_bounds b hb i 1 one_pos

lemma _halton_1d_zero (b : ℕ) : _halton_1d 0 b = 0 := by
  rw [_halton_1d, halton1dAux]
  simp

/-! ### Claim theorems: Halton generator -/

/-- C7: for every base `b ≥ 2` and every index `i ≥ 0` (hence in particular
`i ≥ 1`), `_halton_1d i b ∈ [0, 1)`; `_halton_1d 0 b = 0`; and in exact
arithmetic `_halton_1d 1 2 = 1/2`, `_halton_1d 2 2 = 1/4`,
`_halton_1d 3 2 = 3/4`, `_halton_1d 1 3 = 1/3`, `_halton_1d 2 3 = 2/3`. -/
theorem halton1d_range_and_values (b : ℕ) (hb : 2 ≤ b) :
    (∀ i, 0 ≤ _halton_1d i b ∧ _halton_1d i b < 1) ∧
    _halton_1d 0 b = 0 ∧
    _halton_1d 1 2 = 1/2 ∧ _halton_1d 2 2 = 1/4 ∧ _halton_1d 3 2 = 3/4 ∧
    _halton_1d 1 3 = 1/3 ∧ _halton_1d 2 3 = 2/3 := by
  refine ⟨fun i => _halton_1d_mem b i hb, _halton_1d_zero b, ?_, ?_, ?_, ?_, ?_⟩
  all_goals norm_num [_halton_1d, halton1dAux_step, halton1dAux_zero]

/-- Witness for C7 at `b = 2`, `i = 5`. -/
theorem halton1d_range_and_values_witness :
    2 ≤ 2 ∧
    ((∀ i, 0 ≤ _halton_1d i 2 ∧ _halton_1d i 2 < 1) ∧
     _halton_1d 0 2 = 0 ∧
     _halton_1d 1 2 = 1/2 ∧ _halton_1d 2 2 = 1/4 ∧ _halton_1d 3 2 = 3/4 ∧
     _halton_1d 1 3 = 1/3 ∧ _halton_1d 2 3 = 2/3) :=
  ⟨by norm_num, halton1d_range_and_values 2 (by norm_num)⟩

/-- C10 (amended): for every base `b ≥ 2` the `_halton_1d` loop terminates
normally for every index (fuel `j + 1` suffices, since each iteration
strictly decreases the index under integer division by `b`), computing
`_halton_1d`; for base `1` and index `i ≥ 1` the loop never terminates,
however much fuel it is given; and for base `0` and index `i ≥ 1` it aborts
at once with a division-by-zero error rather than looping forever. -/
theorem haltonLoop_termination (b i fuel : ℕ) (hb : 2 ≤ b) (hi : 1 ≤ i)
    (hfuel : 1 ≤ fuel) :
    (∀ j, haltonLoopFuel b (j + 1) j 1 0 = some (.ok (_halton_1d j b))) ∧
    haltonLoopFuel 1 fuel i 1 0 = none ∧
    haltonLoopFuel 0 fuel i 1 0 = some (.error "float division by zero") := by
  refine ⟨fun j => ?_, haltonLoopFuel_one_none fuel i 1 0 hi,
    haltonLoopFuel_zero_error fuel i 1 0 hfuel hi⟩
  rw [haltonLoopFuel_eq_aux b hb (j + 1) j 1 0 (by omega), _halton_1d, zero_add]

/-- Witness for C10 at `b = 2`, `i = 3`, `fuel = 4`. -/
theorem haltonLoop_termination_witness :
    2 ≤ 2 ∧ 1 ≤ 3 ∧ 1 ≤ 4 ∧
    ((∀ j, haltonLoopFuel 2 (j + 1) j 1 0 = some (.ok (_halton_1d j 2))) ∧
     haltonLoopFuel 1 4 3 1 0 = none ∧
     haltonLoopFuel 0 4 3 1 0 = some (.error "float division by zero")) :=
  ⟨by norm_num, by norm_num, by norm_num,
   haltonLoop_termination 2 3 4 (by norm_num) (by norm_num) (by norm_num)⟩

/-- Counterexample to C10 as stated: for base `0` and index `1` the loop does
terminate (after a single iteration, with a `ZeroDivisionError`), so it is
not the case that the loop never terminates for every `b ≤ 1` and `i ≥ 1`. -/
theorem haltonLoop_base_zero_terminates :
    haltonLoopFuel 0 1 1 1 0 = some (.error "float division by zero") ∧
    ¬ (∀ fuel, haltonLoopFuel 0 fuel 1 1 0 = none) := by
  constructor
  · rfl
  · intro h
    have := h 1
    simp [haltonLoopFuel] at this

/-! ### Helper lemmas about the per-pair evaluator -/

/-- The two-sided fold `2 * min u (1 - u)` maps `[0, 1]` into `[0, 1]`. -/
lemma two_min_mem (u : ℚ) (h0 : 0 ≤ u) (h1 : u ≤ 1) :
    0 ≤ 2 * min u (1 - u) ∧ 2 * min u (1 - u) ≤ 1 := by
  rcases le_total u (1 - u) with h | h
  · rw [min_eq_left h]
    constructor <;> linarith
  · rw [min_eq_right h]
    constructor <;> linarith

/-- If the Beta CDF has range inside `[0, 1]`, every per-pair p-value lies
in `[0, 1]`. -/
lemma indexed_pitcos_mem (B : StatsBackend)
    (hcdf : ∀ v a c, 0 ≤ B.betaCDF v a c ∧ B.betaCDF v a c ≤ 1)
    (xo : List ℚ) (n : ℤ) (pair : ℤ × ℤ) :
    0 ≤ _indexed_pitcos_bidirectional B xo n pair ∧
      _indexed_pitcos_bidirectional B xo n pair ≤ 1 := by
  simp only [_indexed_pitcos_bidirectional]
  refine two_min_mem _ ?_ ?_ <;>
    split_ifs <;> first
      | exact (hcdf _ _ _).1
      | exact (hcdf _ _ _).2
      | norm_num

/-! ### Claim theorems: per-pair evaluator -/

/-- C1: on a sorted sample of length `n ≥ 1` and a pair with both components
in `[1, n]`, the evaluator returns `2 * min (u, 1 - u)` where `u` is the
`Beta(finish, n - finish + 1)` CDF at `xo[finish]` on the diagonal, the
`Beta(finish - start, n - finish + 1)` CDF at
`(xo[finish] - xo[start]) / (1 - xo[start])` in the untied forward case, and
the `Beta(finish, start - finish)` CDF at `xo[finish] / xo[start]` in the
untied backward case (1-based indexing). -/
theorem indexed_pitcos_formula (B : StatsBackend) (xo : List ℚ) (n start finish : ℤ)
    (hlen : (xo.length : ℤ) = n) (hn : 1 ≤ n)
    (hsorted : xo.Sorted (· ≤ ·))
    (hs1 : 1 ≤ start) (hs2 : start ≤ n) (hf1 : 1 ≤ finish) (hf2 : finish ≤ n) :
    (start = finish →
      _indexed_pitcos_bidirectional B xo n (start, finish) =
        2 * min (B.betaCDF (xo.getD (finish - 1).toNat 0) finish (n - finish + 1))
          (1 - B.betaCDF (xo.getD (finish - 1).toNat 0) finish (n - finish + 1))) ∧
    (start < finish → xo.getD (start - 1).toNat 0 ≠ xo.getD (finish - 1).toNat 0 →
      _indexed_pitcos_bidirectional B xo n (start, finish) =
        2 * min (B.betaCDF
            ((xo.getD (finish - 1).toNat 0 - xo.getD (start - 1).toNat 0) /
              (1 - xo.getD (start - 1).toNat 0)) (finish - start) (n - finish + 1))
          (1 - B.betaCDF
            ((xo.getD (finish - 1).toNat 0 - xo.getD (start - 1).toNat 0) /
              (1 - xo.getD (start - 1).toNat 0)) (finish - start) (n - finish + 1))) ∧
    (finish < start → xo.getD (start - 1).toNat 0 ≠ xo.getD (finish - 1).toNat 0 →
      _indexed_pitcos_bidirectional B xo n (start, finish) =
        2 * min (B.betaCDF (xo.getD (finish - 1).toNat 0 / xo.getD (start - 1).toNat 0)
            finish (start - finish))
          (1 - B.betaCDF (xo.getD (finish - 1).toNat 0 / xo.getD (start - 1).toNat 0)
            finish (start - finish))) := by
  refine ⟨fun h => ?_, fun h hne => ?_, fun h hne => ?_⟩
  · simp only [_indexed_pitcos_bidirectional]
    rw [if_pos h]
  · simp only [_indexed_pitcos_bidirectional]
    rw [if_neg (by omega), if_pos h, if_neg hne]
  · simp only [_indexed_pitcos_bidirectional]
    rw [if_neg (by omega), if_neg (by omega), if_neg hne]

/-- Witness for C1 on the sorted sample `[1/4, 1/2, 3/4]` with
`start = 1`, `finish = 2`. -/
theorem indexed_pitcos_formula_witness :
    (([(1 : ℚ)/4, 1/2, 3/4].length : ℤ) = 3 ∧ (1 : ℤ) ≤ 3 ∧
      List.Sorted (· ≤ ·) [(1 : ℚ)/4, 1/2, 3/4] ∧
      (1 : ℤ) ≤ 1 ∧ (1 : ℤ) ≤ 3 ∧ (1 : ℤ) ≤ 2 ∧ (2 : ℤ) ≤ 3) ∧
    (((1 : ℤ) = 2 →
      _indexed_pitcos_bidirectional mockBackend [(1 : ℚ)/4, 1/2, 3/4] 3 (1, 2) =
        2 * min (mockBackend.betaCDF ([(1 : ℚ)/4, 1/2, 3/4].getD ((2 : ℤ) - 1).toNat 0)
            2 (3 - 2 + 1))
          (1 - mockBackend.betaCDF ([(1 : ℚ)/4, 1/2, 3/4].getD ((2 : ℤ) - 1).toNat 0)
            2 (3 - 2 + 1))) ∧
    ((1 : ℤ) < 2 →
      [(1 : ℚ)/4, 1/2, 3/4].getD ((1 : ℤ) - 1).toNat 0 ≠
        [(1 : ℚ)/4, 1/2, 3/4].getD ((2 : ℤ) - 1).toNat 0 →
      _indexed_pitcos_bidirectional mockBackend [(1 : ℚ)/4, 1/2, 3/4] 3 (1, 2) =
        2 * min (mockBackend.betaCDF
            (([(1 : ℚ)/4, 1/2, 3/4].getD ((2 : ℤ) - 1).toNat 0 -
                [(1 : ℚ)/4, 1/2, 3/4].getD ((1 : ℤ) - 1).toNat 0) /
              (1 - [(1 : ℚ)/4, 1/2, 3/4].getD ((1 : ℤ) - 1).toNat 0)) (2 - 1) (3 - 2 + 1))
          (1 - mockBackend.betaCDF
            (([(1 : ℚ)/4, 1/2, 3/4].getD ((2 : ℤ) - 1).toNat 0 -
                [(1 : ℚ)/4, 1/2, 3/4].getD ((1 : ℤ) - 1).toNat 0) /
              (1 - [(1 : ℚ)/4, 1/2, 3/4].getD ((1 : ℤ) - 1).toNat 0)) (2 - 1) (3 - 2 + 1))) ∧
    ((2 : ℤ) < 1 →
      [(1 : ℚ)/4, 1/2, 3/4].getD ((1 : ℤ) - 1).toNat 0 ≠
        [(1 : ℚ)/4, 1/2, 3/4].getD ((2 : ℤ) - 1).toNat 0 →
      _indexed_pitcos_bidirectional mockBackend [(1 : ℚ)/4, 1/2, 3/4] 3 (1, 2) =
        2 * min (mockBackend.betaCDF
            ([(1 : ℚ)/4, 1/2, 3/4].getD ((2 : ℤ) - 1).toNat 0 /
              [(1 : ℚ)/4, 1/2, 3/4].getD ((1 : ℤ) - 1).toNat 0) 2 (1 - 2))
          (1 - mockBackend.betaCDF
            ([(1 : ℚ)/4, 1/2, 3/4].getD ((2 : ℤ) - 1).toNat 0 /
              [(1 : ℚ)/4, 1/2, 3/4].getD ((1 : ℤ) - 1).toNat 0) 2 (1 - 2)))) :=
  ⟨⟨by norm_num, by norm_num, by simp [List.sorted_cons]; norm_num,
    by norm_num, by norm_num, by norm_num, by norm_num⟩,
   indexed_pitcos_formula mockBackend [(1 : ℚ)/4, 1/2, 3/4] 3 1 2
     (by norm_num) (by norm_num) (by simp [List.sorted_cons]; norm_num)
     (by norm_num) (by norm_num) (by norm_num) (by norm_num)⟩

/-- C3: off the diagonal, a tie `xo[start] = xo[finish]` forces `u = 0` and
hence a returned p-value of exactly `0`, in the forward and backward cases
alike; on the diagonal there is no tie branch — the Beta CDF formula is used
unconditionally, whatever the sample values. -/
theorem indexed_pitcos_tie_zero (B : StatsBackend) (xo : List ℚ) (n start finish : ℤ)
    (hsorted : xo.Sorted (· ≤ ·)) (hne : start ≠ finish)
    (htie : xo.getD (start - 1).toNat 0 = xo.getD (finish - 1).toNat 0) :
    _indexed_pitcos_bidirectional B xo n (start, finish) = 0 ∧
    (∀ s : ℤ, _indexed_pitcos_bidirectional B xo n (s, s) =
      2 * min (B.betaCDF (xo.getD (s - 1).toNat 0) s (n - s + 1))
        (1 - B.betaCDF (xo.getD (s - 1).toNat 0) s (n - s + 1))) := by
  constructor
  · rcases lt_or_gt_of_ne hne with h | h
    · simp only [_indexed_pitcos_bidirectional]
      rw [if_neg hne, if_pos h, if_pos htie]
      norm_num
    · simp only [_indexed_pitcos_bidirectional]
      rw [if_neg hne, if_neg (by omega), if_pos htie]
      norm_num
  · intro s
    simp [_indexed_pitcos_bidirectional]

/-- Witness for C3 on the tied sorted sample `[1/2, 1/2]` with the forward
pair `(1, 2)`. -/
theorem indexed_pitcos_tie_zero_witness :
    (List.Sorted (· ≤ ·) [(1 : ℚ)/2, 1/2] ∧ (1 : ℤ) ≠ 2 ∧
      [(1 : ℚ)/2, 1/2].getD ((1 : ℤ) - 1).toNat 0 =
        [(1 : ℚ)/2, 1/2].getD ((2 : ℤ) - 1).toNat 0) ∧
    (_indexed_pitcos_bidirectional mockBackend [(1 : ℚ)/2, 1/2] 2 (1, 2) = 0 ∧
     (∀ s : ℤ, _indexed_pitcos_bidirectional mockBackend [(1 : ℚ)/2, 1/2] 2 (s, s) =
       2 * min (mockBackend.betaCDF ([(1 : ℚ)/2, 1/2].getD (s - 1).toNat 0) s (2 - s + 1))
         (1 - mockBackend.betaCDF ([(1 : ℚ)/2, 1/2].getD (s - 1).toNat 0) s (2 - s + 1)))) :=
  ⟨⟨by simp [List.sorted_cons], by norm_num, by norm_num⟩,
   indexed_pitcos_tie_zero mockBackend [(1 : ℚ)/2, 1/2] 2 1 2
     (by simp [List.sorted_cons]) (by norm_num) (by norm_num)⟩

/-! ### Claim theorems: Cauchy combiner -/

/-- C6: the Cauchy combiner fails exactly when some input p-value is `< 0`
or `> 1`; when every input lies in `[0, 1]` it returns normally (no
out-of-range value is clamped — it is rejected). -/
theorem cauchy_combination_error_iff (B : StatsBackend) (pvalues : List ℚ) :
    ((∃ e, _cauchy_combination B pvalues = Except.error e) ↔
      ∃ p ∈ pvalues, p < 0 ∨ 1 < p) ∧
    ((∃ v, _cauchy_combination B pvalues = Except.ok v) ↔
      ∀ p ∈ pvalues, 0 ≤ p ∧ p ≤ 1) := by
  have hany : (pvalues.any (fun p => decide (p < 0) || decide (p > 1)) = true) ↔
      ∃ p ∈ pvalues, p < 0 ∨ 1 < p := by
    simp [List.any_eq_true]
  have hforall : (¬ ∃ p ∈ pvalues, p < 0 ∨ 1 < p) ↔ ∀ p ∈ pvalues, 0 ≤ p ∧ p ≤ 1 := by
    constructor
    · intro h p hp
      constructor
      · by_contra hc
        exact h ⟨p, hp, Or.inl (by linarith)⟩
      · by_contra hc
        exact h ⟨p, hp, Or.inr (by linarith)⟩
    · rintro h ⟨p, hp, hc⟩
      obtain ⟨h1, h2⟩ := h p hp
      rcases hc with hc | hc <;> linarith
  by_cases hP : ∃ p ∈ pvalues, p < 0 ∨ 1 < p
  · rw [_cauchy_combination, if_pos (hany.mpr hP)]
    refine ⟨⟨fun _ => hP, fun _ => ⟨_, rfl⟩⟩, ?_, ?_⟩
    · rintro ⟨v, hv⟩
      exact Except.noConfusion hv
    · intro hall
      exact absurd hP (hforall.mpr hall)
  · rw [_cauchy_combination, if_neg (fun hc => hP (hany.mp hc))]
    refine ⟨⟨?_, fun h => absurd h hP⟩, fun _ => hforall.mp hP, fun _ => ⟨_, rfl⟩⟩
    rintro ⟨e, he⟩
    exact Except.noConfusion he

/-- When every p-value lies in `[0, 1]` the range check of the combiner passes and
it returns the Cauchy survival function of the mean of the transformed
values (`nan`, i.e. `none`, when the list is empty). -/
lemma cauchy_combination_ok (B : StatsBackend) (l : List ℚ)
    (hl : ∀ p ∈ l, 0 ≤ p ∧ p ≤ 1) :
    _cauchy_combination B l =
      .ok ((npMean (l.map (fun p => B.tan (B.pi * (1/2 - p))))).map B.cauchySF) := by
  rw [_cauchy_combination, if_neg]
  simp only [List.any_eq_true, Bool.or_eq_true, decide_eq_true_eq]
  rintro ⟨p, hp, hc | hc⟩
  · have := (hl p hp).1
    linarith
  · have := (hl p hp).2
    linarith

/-- On a nonempty list the mean is the sum divided by the length. -/
lemma npMean_ne_nil (l : List ℚ) (h : l ≠ []) :
    npMean l = some (l.sum / (l.length : ℚ)) := by
  rw [npMean, if_neg h]

/-- When the p-value list is nonempty and in range, the combiner returns the
real number `cauchySF (mean of transformed values)`. -/
lemma cauchy_combination_ok_ne_nil (B : StatsBackend) (l : List ℚ) (h : l ≠ [])
    (hl : ∀ p ∈ l, 0 ≤ p ∧ p ≤ 1) :
    _cauchy_combination B l =
      .ok (some (B.cauchySF ((l.map (fun p => B.tan (B.pi * (1/2 - p)))).sum /
        (l.length : ℚ)))) := by
  rw [cauchy_combination_ok B l hl, npMean_ne_nil _ (by simpa using h)]
  simp [List.length_map]

/-- When every pair component lies in `[1, n]` the validator succeeds. -/
lemma validate_pairs_ok (ps : List (ℤ × ℤ)) (n : ℤ)
    (h : ∀ q ∈ ps, 1 ≤ q.1 ∧ q.1 ≤ n ∧ 1 ≤ q.2 ∧ q.2 ≤ n) :
    _validate_pairs ps n = .ok () := by
  rw [_validate_pairs, if_neg]
  simp only [List.any_eq_true, Bool.or_eq_true, decide_eq_true_eq]
  rintro ⟨q, hq, hc⟩
  have := h q hq
  rcases hc with ((hc | hc) | hc) | hc <;> omega

/-- C4: the combiner returns the standard Cauchy survival function of the
arithmetic mean of `tan(pi * (0.5 - p))` over its inputs (on a nonempty
input the mean is the sum over the length; the empty mean is `nan`, which
the survival function propagates), and on `k ≥ 1` copies of `1/2` (given
`tan 0 = 0` and `cauchySF 0 = 1/2`, facts of the underlying library) it
returns exactly `1/2`. -/
theorem cauchy_combination_formula (B : StatsBackend) (pvalues : List ℚ) (k : ℕ)
    (hrange : ∀ p ∈ pvalues, 0 ≤ p ∧ p ≤ 1) (htan : B.tan 0 = 0)
    (hsf : B.cauchySF 0 = 1/2) (hk : 1 ≤ k) :
    _cauchy_combination B pvalues =
      .ok ((npMean (pvalues.map (fun p => B.tan (B.pi * (1/2 - p))))).map B.cauchySF) ∧
    (pvalues ≠ [] →
      _cauchy_combination B pvalues =
        .ok (some (B.cauchySF ((pvalues.map (fun p => B.tan (B.pi * (1/2 - p)))).sum /
          (pvalues.length : ℚ))))) ∧
    _cauchy_combination B (List.replicate k ((1 : ℚ)/2)) = .ok (some (1/2)) := by
  refine ⟨cauchy_combination_ok B pvalues hrange,
    fun hne => cauchy_combination_ok_ne_nil B pvalues hne hrange, ?_⟩
  rw [cauchy_combination_ok_ne_nil B (List.replicate k ((1 : ℚ)/2))
    (by simp; omega)
    (fun p hp => by rw [List.eq_of_mem_replicate hp]; norm_num)]
  have hmap : (List.replicate k ((1 : ℚ)/2)).map (fun p => B.tan (B.pi * (1/2 - p))) =
      List.replicate k 0 := by
    rw [List.map_replicate]
    rw [show (1 : ℚ)/2 - 1/2 = 0 by norm_num, mul_zero, htan]
  rw [hmap]
  simp [hsf]

/-- Witness for C4 with the p-values `[1/2, 1/4]` and `k = 2`. -/
theorem cauchy_combination_formula_witness :
    (∀ p ∈ [(1 : ℚ)/2, 1/4], 0 ≤ p ∧ p ≤ 1) ∧ mockBackend.tan 0 = 0 ∧
    mockBackend.cauchySF 0 = 1/2 ∧ 1 ≤ 2 ∧
    (_cauchy_combination mockBackend [(1 : ℚ)/2, 1/4] =
      .ok ((npMean ([(1 : ℚ)/2, 1/4].map
        (fun p => mockBackend.tan (mockBackend.pi * (1/2 - p))))).map
          mockBackend.cauchySF) ∧
     ([(1 : ℚ)/2, 1/4] ≠ [] →
      _cauchy_combination mockBackend [(1 : ℚ)/2, 1/4] =
        .ok (some (mockBackend.cauchySF
          (([(1 : ℚ)/2, 1/4].map
            (fun p => mockBackend.tan (mockBackend.pi * (1/2 - p)))).sum /
              ([(1 : ℚ)/2, 1/4].length : ℚ))))) ∧
     _cauchy_combination mockBackend (List.replicate 2 ((1 : ℚ)/2)) = .ok (some (1/2))) :=
  ⟨by intro p hp; fin_cases hp <;> norm_num, rfl, rfl, by norm_num,
   cauchy_combination_formula mockBackend [(1 : ℚ)/2, 1/4] 2
     (by intro p hp; fin_cases hp <;> norm_num) rfl rfl (by norm_num)⟩

/-! ### Claim theorems: validation and orchestration -/

/-- C5: a pair sequence containing a component outside `[1, n]` makes the
validator fail, and makes `pitos` fail with that same validation error for
every backend — validation happens before any per-pair evaluation. -/
theorem validate_pairs_invalid (B : StatsBackend) (x : List ℚ) (ps : List (ℤ × ℤ))
    (q : ℤ × ℤ) (hmem : q ∈ ps)
    (hbad : q.1 < 1 ∨ q.2 < 1 ∨ (x.length : ℤ) < q.1 ∨ (x.length : ℤ) < q.2) :
    _validate_pairs ps (x.length : ℤ) =
      .error ("All pair indices must be between 1 and n (where n=" ++
        toString ((x.length : ℤ)) ++ ").") ∧
    pitos B x (some ps) =
      .error ("All pair indices must be between 1 and n (where n=" ++
        toString ((x.length : ℤ)) ++ ").") := by
  have hval : _validate_pairs ps (x.length : ℤ) =
      .error ("All pair indices must be between 1 and n (where n=" ++
        toString ((x.length : ℤ)) ++ ").") := by
    rw [_validate_pairs, if_pos]
    simp only [List.any_eq_true, Bool.or_eq_true, decide_eq_true_eq]
    refine ⟨q, hmem, ?_⟩
    tauto
  refine ⟨hval, ?_⟩
  simp only [pitos]
  rw [hval]

/-- Witness for C5 on a sample of length 10 and the pair list `[(0, 5)]`. -/
theorem validate_pairs_invalid_witness :
    ((0, 5) ∈ [((0 : ℤ), (5 : ℤ))] ∧
      ((0 : ℤ), (5 : ℤ)).1 < 1 ∨ ((0 : ℤ), (5 : ℤ)).2 < 1 ∨
        ((List.replicate 10 ((1 : ℚ)/2)).length : ℤ) < ((0 : ℤ), (5 : ℤ)).1 ∨
        ((List.replicate 10 ((1 : ℚ)/2)).length : ℤ) < ((0 : ℤ), (5 : ℤ)).2) ∧
    (_validate_pairs [((0 : ℤ), (5 : ℤ))] ((List.replicate 10 ((1 : ℚ)/2)).length : ℤ) =
      .error ("All pair indices must be between 1 and n (where n=" ++
        toString (((List.replicate 10 ((1 : ℚ)/2)).length : ℤ)) ++ ").") ∧
     pitos mockBackend (List.replicate 10 ((1 : ℚ)/2)) (some [((0 : ℤ), (5 : ℤ))]) =
      .error ("All pair indices must be between 1 and n (where n=" ++
        toString (((List.replicate 10 ((1 : ℚ)/2)).length : ℤ)) ++ ").")) :=
  ⟨by norm_num,
   validate_pairs_invalid mockBackend (List.replicate 10 ((1 : ℚ)/2))
     [((0 : ℤ), (5 : ℤ))] (0, 5) (by norm_num) (by norm_num)⟩

/-- C8 (amended): with a Beta CDF and a Cauchy survival function of range
inside `[0, 1]` (facts of the underlying library), every per-pair p-value
lies in `[0, 1]`, and on a valid **nonempty** pair sequence `pitos` returns
normally with a real overall p-value in `[0, 1]`.  Nonemptiness is needed:
on the empty pair sequence the program returns `nan`
(see `pitos_empty_pairs_nan`). -/
theorem pitos_range (B : StatsBackend) (x : List ℚ) (ps : List (ℤ × ℤ))
    (hcdf : ∀ v a c, 0 ≤ B.betaCDF v a c ∧ B.betaCDF v a c ≤ 1)
    (hsf : ∀ v, 0 ≤ B.cauchySF v ∧ B.cauchySF v ≤ 1)
    (hn : 1 ≤ x.length) (hps : ps ≠ [])
    (hvalid : ∀ q ∈ ps, 1 ≤ q.1 ∧ q.1 ≤ (x.length : ℤ) ∧ 1 ≤ q.2 ∧ q.2 ≤ (x.length : ℤ)) :
    (∀ (xo : List ℚ) (n : ℤ) (q : ℤ × ℤ),
      0 ≤ _indexed_pitcos_bidirectional B xo n q ∧
        _indexed_pitcos_bidirectional B xo n q ≤ 1) ∧
    (∃ v : ℚ, pitos B x (some ps) = .ok (some v) ∧ 0 ≤ v ∧ v ≤ 1) := by
  refine ⟨fun xo n q => indexed_pitcos_mem B hcdf xo n q, ?_⟩
  simp only [pitos]
  rw [validate_pairs_ok ps (x.length : ℤ) hvalid]
  rw [cauchy_combination_ok_ne_nil B _ (by simpa using hps) ?_]
  · exact ⟨_, rfl, (hsf _).1, (hsf _).2⟩
  · intro p hp
    obtain ⟨q, _, rfl⟩ := List.mem_map.mp hp
    exact indexed_pitcos_mem B hcdf _ _ q

/-- Counterexample to C8 as stated: on the sample `[1/2]` and the (valid,
but empty) explicit pair sequence `[]`, `pitos` returns `nan` — the mean of
an empty array — modelled as `.ok none`; in particular it does not return a
real overall p-value in `[0, 1]`. -/
theorem pitos_empty_pairs_nan :
    pitos mockBackend [(1 : ℚ)/2] (some ([] : List (ℤ × ℤ))) = .ok none ∧
    ¬ ∃ v : ℚ, pitos mockBackend [(1 : ℚ)/2] (some ([] : List (ℤ × ℤ))) = .ok (some v) ∧
      0 ≤ v ∧ v ≤ 1 := by
  have h : pitos mockBackend [(1 : ℚ)/2] (some ([] : List (ℤ × ℤ))) = .ok none := by
    simp only [pitos]
    rw [validate_pairs_ok [] _ (by intro q hq; cases hq)]
    rw [cauchy_combination_ok mockBackend _ (by intro p hp; simp at hp)]
    rfl
  refine ⟨h, ?_⟩
  rintro ⟨v, hv, _⟩
  rw [h] at hv
  exact Option.noConfusion (Except.ok.inj hv)

/-- Witness for C8 on the sample `[1/2, 1/4]` and the pairs `[(1, 2), (2, 2)]`. -/
theorem pitos_range_witness :
    (∀ (v : ℚ) (a c : ℤ), 0 ≤ mockBackend.betaCDF v a c ∧ mockBackend.betaCDF v a c ≤ 1) ∧
    (∀ v : ℚ, 0 ≤ mockBackend.cauchySF v ∧ mockBackend.cauchySF v ≤ 1) ∧
    1 ≤ [(1 : ℚ)/2, 1/4].length ∧
    [((1 : ℤ), (2 : ℤ)), (2, 2)] ≠ [] ∧
    (∀ q ∈ [((1 : ℤ), (2 : ℤ)), (2, 2)], 1 ≤ q.1 ∧ q.1 ≤ ([(1 : ℚ)/2, 1/4].length : ℤ) ∧
      1 ≤ q.2 ∧ q.2 ≤ ([(1 : ℚ)/2, 1/4].length : ℤ)) ∧
    ((∀ (xo : List ℚ) (n : ℤ) (q : ℤ × ℤ),
      0 ≤ _indexed_pitcos_bidirectional mockBackend xo n q ∧
        _indexed_pitcos_bidirectional mockBackend xo n q ≤ 1) ∧
     (∃ v : ℚ, pitos mockBackend [(1 : ℚ)/2, 1/4] (some [((1 : ℤ), (2 : ℤ)), (2, 2)]) =
       .ok (some v) ∧ 0 ≤ v ∧ v ≤ 1)) :=
  ⟨fun _ _ _ => by norm_num [mockBackend], fun _ => by norm_num [mockBackend],
   by norm_num, by simp, by intro q hq; fin_cases hq <;> norm_num,
   pitos_range mockBackend [(1 : ℚ)/2, 1/4] [((1 : ℤ), (2 : ℤ)), (2, 2)]
     (fun _ _ _ => by norm_num [mockBackend]) (fun _ => by norm_num [mockBackend])
     (by norm_num) (by simp) (by intro q hq; fin_cases hq <;> norm_num)⟩

/-- C9: `pitos` is a pure function of its arguments — two calls with
identical sample and explicit pair sequence return the exact same overall
p-value; there is no hidden randomness or cross-call state in the model. -/
theorem pitos_deterministic (B : StatsBackend) (x1 x2 : List ℚ)
    (ps1 ps2 : List (ℤ × ℤ)) (hx : x1 = x2) (hps : ps1 = ps2) :
    pitos B x1 (some ps1) = pitos B x2 (some ps2) := by
  rw [hx, hps]

/-- Witness for C9 on the sample `[1/2]` with pair list `[(1, 1)]`. -/
theorem pitos_deterministic_witness :
    [(1 : ℚ)/2] = [(1 : ℚ)/2] ∧ [((1 : ℤ), (1 : ℤ))] = [((1 : ℤ), (1 : ℤ))] ∧
    pitos mockBackend [(1 : ℚ)/2] (some [((1 : ℤ), (1 : ℤ))]) =
      pitos mockBackend [(1 : ℚ)/2] (some [((1 : ℤ), (1 : ℤ))]) :=
  ⟨rfl, rfl, pitos_deterministic mockBackend [(1 : ℚ)/2] [(1 : ℚ)/2]
    [((1 : ℤ), (1 : ℤ))] [((1 : ℤ), (1 : ℤ))] rfl rfl⟩

/-! ### Claim theorems: weighted Halton pair generator -/

/-- Dropping the length of the first block of a concatenation leaves the
second block. -/
lemma drop_append_length {α : Type} (A M : List α) (N : ℕ) (h : A.length = N) :
    (A ++ M).drop N = M := by
  subst h
  exact List.drop_left A M

/-- A weighted coordinate built from a raw value in `[0, 1)` — warped by a
Beta quantile that maps `[0, 1)` into `[0, 1)`, with exact zeros replaced by
`1/n` — scales and ceils to an index in `[1, n]`. -/
lemma weighted_index_mem (B : StatsBackend) (n : ℤ) (hn : 1 ≤ n)
    (hppf : ∀ q, 0 ≤ q → q < 1 →
      0 ≤ B.betaPPF q (7/10) (7/10) ∧ B.betaPPF q (7/10) (7/10) < 1)
    (q : ℚ) (hq0 : 0 ≤ q) (hq1 : q < 1) :
    1 ≤ ⌈(if B.betaPPF q (7/10) (7/10) = 0 then 1 / (n : ℚ)
          else B.betaPPF q (7/10) (7/10)) * (n : ℚ)⌉ ∧
    ⌈(if B.betaPPF q (7/10) (7/10) = 0 then 1 / (n : ℚ)
          else B.betaPPF q (7/10) (7/10)) * (n : ℚ)⌉ ≤ n := by
  have hnQ : (0 : ℚ) < (n : ℚ) := by exact_mod_cast lt_of_lt_of_le one_pos hn
  obtain ⟨hp0, hp1⟩ := hppf q hq0 hq1
  by_cases h : B.betaPPF q (7/10) (7/10) = 0
  · rw [if_pos h, one_div, inv_mul_cancel₀ (ne_of_gt hnQ)]
    rw [Int.ceil_one]
    exact ⟨le_refl 1, hn⟩
  · rw [if_neg h]
    have hw0 : 0 < B.betaPPF q (7/10) (7/10) := lt_of_le_of_ne hp0 (Ne.symm h)
    constructor
    · have hpos : ((0 : ℤ) : ℚ) < B.betaPPF q (7/10) (7/10) * (n : ℚ) := by
        push_cast
        exact mul_pos hw0 hnQ
      have := Int.lt_ceil.mpr hpos
      omega
    · rw [Int.ceil_le]
      calc B.betaPPF q (7/10) (7/10) * (n : ℚ) ≤ 1 * (n : ℚ) :=
            mul_le_mul_of_nonneg_right (le_of_lt hp1) (le_of_lt hnQ)
        _ = ((n : ℤ) : ℚ) := one_mul _

/-- C2: for `N ≥ 0` and `n ≥ 1`, the generated sequence has exactly `N + n`
pairs, its last `n` entries are the marginal pairs `(k, k)` for `k = 1..n`
in order, and — given that the Beta quantile maps `[0, 1)` into `[0, 1)`, a
fact of the underlying library — every component of every pair is an
integer in `[1, n]`. -/
theorem generate_weighted_halton_spec (B : StatsBackend) (N : ℕ) (n : ℤ)
    (hn : 1 ≤ n)
    (hppf : ∀ q, 0 ≤ q → q < 1 →
      0 ≤ B.betaPPF q (7/10) (7/10) ∧ B.betaPPF q (7/10) (7/10) < 1) :
    ∃ l, generate_weighted_halton_sequence B N n = .ok l ∧
      l.length = N + n.toNat ∧
      l.drop N = (List.range n.toNat).map (fun k : ℕ => ((k : ℤ) + 1, (k : ℤ) + 1)) ∧
      ∀ q ∈ l, (1 ≤ q.1 ∧ q.1 ≤ n) ∧ (1 ≤ q.2 ∧ q.2 ≤ n) := by
  have heq : generate_weighted_halton_sequence B N n = .ok
      ((((List.range N).map (fun k => (_halton_1d (k + 1) 2, _halton_1d (k + 1) 3))).map
        (fun p =>
          (⌈(if B.betaPPF p.1 (7/10) (7/10) = 0 then 1 / (n : ℚ)
              else B.betaPPF p.1 (7/10) (7/10)) * (n : ℚ)⌉,
           ⌈(if B.betaPPF p.2 (7/10) (7/10) = 0 then 1 / (n : ℚ)
              else B.betaPPF p.2 (7/10) (7/10)) * (n : ℚ)⌉))) ++
       (List.range n.toNat).map (fun k : ℕ => ((k : ℤ) + 1, (k : ℤ) + 1))) := by
    rw [generate_weighted_halton_sequence, _generate_raw_halton_sequence,
      if_neg (by omega)]
  refine ⟨_, heq, ?_, ?_, ?_⟩
  · simp
  · have hlen : (((List.range N).map
        (fun k => (_halton_1d (k + 1) 2, _halton_1d (k + 1) 3))).map
        (fun p =>
          (⌈(if B.betaPPF p.1 (7/10) (7/10) = 0 then 1 / (n : ℚ)
              else B.betaPPF p.1 (7/10) (7/10)) * (n : ℚ)⌉,
           ⌈(if B.betaPPF p.2 (7/10) (7/10) = 0 then 1 / (n : ℚ)
              else B.betaPPF p.2 (7/10) (7/10)) * (n : ℚ)⌉))).length = N := by
      simp
    exact drop_append_length _ _ N hlen
  · intro q hq
    rcases List.mem_append.mp hq with h | h
    · obtain ⟨p, hp, rfl⟩ := List.mem_map.mp h
      obtain ⟨k, _, rfl⟩ := List.mem_map.mp hp
      dsimp only
      obtain ⟨h20, h21⟩ := _halton_1d_mem 2 (k + 1) (by norm_num)
      obtain ⟨h30, h31⟩ := _halton_1d_mem 3 (k + 1) (by norm_num)
      exact ⟨weighted_index_mem B n hn hppf _ h20 h21,
        weighted_index_mem B n hn hppf _ h30 h31⟩
    · obtain ⟨k, hk, rfl⟩ := List.mem_map.mp h
      have := List.mem_range.mp hk
      constructor <;> constructor <;> omega

/-- Witness for C2 at `N = 0`, `n = 2`. -/
theorem generate_weighted_halton_spec_witness :
    (1 : ℤ) ≤ 2 ∧
    (∀ q : ℚ, 0 ≤ q → q < 1 →
      0 ≤ mockBackend.betaPPF q (7/10) (7/10) ∧ mockBackend.betaPPF q (7/10) (7/10) < 1) ∧
    (∃ l, generate_weighted_halton_sequence mockBackend 0 2 = .ok l ∧
      l.length = 0 + (2 : ℤ).toNat ∧
      l.drop 0 = (List.range (2 : ℤ).toNat).map (fun k : ℕ => ((k : ℤ) + 1, (k : ℤ) + 1)) ∧
      ∀ q ∈ l, (1 ≤ q.1 ∧ q.1 ≤ 2) ∧ (1 ≤ q.2 ∧ q.2 ≤ 2)) :=
  ⟨by norm_num, fun q h0 h1 => ⟨h0, h1⟩,
   generate_weighted_halton_spec mockBackend 0 2 (by norm_num)
     (fun q h0 h1 => ⟨h0, h1⟩)⟩

end PITOS
